import Mathlib

/-!
Shallow embedding of the portfolio-optimization repository
(src/exercise_1.py and src/exercise_3.py) together with the parts of the
dimod SDK surface they use: Binary variables, linear expressions built by
bias accumulation, and ConstrainedQuadraticModel with labeled constraints.
Coefficients are modelled as rationals; every arithmetic step performed by
the scripts on these models is exact, so no precision is lost.
-/

namespace PortfolioOpt

/-- One linear term list, keyed by variable name, in insertion order.
Mirrors the dict of linear biases inside a dimod quadratic model:
adding a bias for a name already present accumulates; a new name is
appended at the end. -/
def addLinear : List (String × ℚ) → String → ℚ → List (String × ℚ)
  | [], v, b => [(v, b)]
  | (u, c) :: ts, v, b =>
    if u = v then (u, c + b) :: ts else (u, c) :: addLinear ts v b

/-- A (purely linear) quadratic-model expression as the scripts build it:
linear biases in insertion order plus a constant offset. The expressions
the two scripts construct never contain quadratic terms. -/
structure QM where
  terms : List (String × ℚ)
  offset : ℚ
deriving DecidableEq, Repr

/-- The zero expression, the start value of the Python builtin sum. -/
def QM.zero : QM := ⟨[], 0⟩

/-- Addition of two expressions: biases of the right operand are folded
into the left operand with accumulation, offsets add. -/
def QM.add (p q : QM) : QM :=
  ⟨q.terms.foldl (fun a t => addLinear a t.1 t.2) p.terms, p.offset + q.offset⟩

/-- Multiplication of an expression by a scalar on the right, as in the
Python source text to_buy[i] * -returns[i]. -/
def QM.smul (p : QM) (r : ℚ) : QM :=
  ⟨p.terms.map (fun t => (t.1, t.2 * r)), p.offset * r⟩

/-- The variables of an expression, in insertion order: models the
.variables view of a dimod quadratic model. -/
def QM.variables (p : QM) : List String := p.terms.map Prod.fst

/-- Value of an expression under an assignment of rationals to names. -/
def QM.eval (p : QM) (σ : String → ℚ) : ℚ :=
  p.offset + (p.terms.map (fun t => t.2 * σ t.1)).sum

/-- dimod.Binary: a fresh expression with a single bias 1 on the name. -/
def Binary (name : String) : QM := ⟨[(name, 1)], 0⟩

/-- The Python builtin sum over a list of expressions, starting from 0. -/
def pySum (l : List QM) : QM := l.foldl QM.add QM.zero

/-- The sense of a constraint comparison. -/
inductive Sense where
  | eq
  | le
deriving DecidableEq, Repr

/-- Truth of a comparison between two rationals. -/
def Sense.check : Sense → ℚ → ℚ → Bool
  | .eq, a, b => a = b
  | .le, a, b => a ≤ b

/-- One labeled constraint of a CQM: left-hand expression, sense, and
right-hand constant. -/
structure Constraint where
  label : String
  lhs : QM
  sense : Sense
  rhs : ℚ
deriving DecidableEq, Repr

/-- A constraint is satisfied by an assignment when the comparison between
the evaluated left-hand side and the right-hand constant holds. -/
def Constraint.satisfied (c : Constraint) (σ : String → ℚ) : Bool :=
  c.sense.check (c.lhs.eval σ) c.rhs

/-- dimod.ConstrainedQuadraticModel: an objective (minimized by the
solver) and a list of labeled constraints in insertion order. -/
structure ConstrainedQuadraticModel where
  objective : QM
  constraints : List Constraint
deriving DecidableEq, Repr

/-- The freshly constructed empty CQM. -/
def ConstrainedQuadraticModel.empty : ConstrainedQuadraticModel := ⟨QM.zero, []⟩

/-- cqm.add_constraint(lhs sense rhs, label): appends the constraint. -/
def ConstrainedQuadraticModel.add_constraint
    (cqm : ConstrainedQuadraticModel) (lhs : QM) (sense : Sense) (rhs : ℚ)
    (label : String) : ConstrainedQuadraticModel :=
  ⟨cqm.objective, cqm.constraints ++ [⟨label, lhs, sense, rhs⟩]⟩

/-- cqm.add_constraint_from_iterable(pairs, sense, rhs, label): builds the
left-hand side by accumulating the (variable, bias) pairs and appends the
constraint. -/
def ConstrainedQuadraticModel.add_constraint_from_iterable
    (cqm : ConstrainedQuadraticModel) (pairs : List (String × ℚ))
    (sense : Sense) (rhs : ℚ) (label : String) : ConstrainedQuadraticModel :=
  ⟨cqm.objective,
   cqm.constraints ++
     [⟨label, ⟨pairs.foldl (fun a t => addLinear a t.1 t.2) [], 0⟩, sense, rhs⟩]⟩

/-- cqm.set_objective(expr): replaces the objective. -/
def ConstrainedQuadraticModel.set_objective
    (cqm : ConstrainedQuadraticModel) (obj : QM) : ConstrainedQuadraticModel :=
  ⟨obj, cqm.constraints⟩

end PortfolioOpt

namespace exercise_1

open PortfolioOpt

/-- define_variables of src/exercise_1.py: one binary variable named
s_ followed by the stock code, per stock, in input order. -/
def define_variables (stockcodes : List String) : List QM :=
  stockcodes.map (fun stock => Binary ("s_" ++ stock))

/-- define_cqm of src/exercise_1.py. Indexing returns[i] is modelled
totally with default 0; the script always calls it with returns of the
same length as stocks. -/
def define_cqm (stocks : List QM) (num_stocks_to_buy : ℤ) (returns : List ℚ) :
    ConstrainedQuadraticModel :=
  let cqm := ConstrainedQuadraticModel.empty
  let to_buy := stocks
  let cqm := cqm.add_constraint (pySum to_buy) Sense.eq (num_stocks_to_buy : ℚ)
    "choose k stocks"
  let cqm := cqm.set_objective (pySum ((List.range to_buy.length).map
    (fun i => (to_buy.getD i QM.zero).smul (-(returns.getD i 0)))))
  cqm

end exercise_1

namespace exercise_3

open PortfolioOpt

/-- define_variables of src/exercise_3.py: identical to exercise_1. -/
def define_variables (stockcodes : List String) : List QM :=
  stockcodes.map (fun stock => Binary ("s_" ++ stock))

/-- The inner predicate of generate_unique_covar_matrix_entries: keeps
points whose row index is at most their column index. -/
def is_part_of_lower_triangular_matrix (point : ℕ × ℕ) : Bool :=
  point.1 ≤ point.2

/-- generate_unique_covar_matrix_entries of src/exercise_3.py:
itertools.product(range(n), repeat=2) filtered by the predicate above. -/
def generate_unique_covar_matrix_entries (num_of_entries : ℕ) : List (ℕ × ℕ) :=
  let all_points := (List.range num_of_entries).flatMap
    (fun i => (List.range num_of_entries).map (fun j => (i, j)))
  all_points.filter is_part_of_lower_triangular_matrix

/-- The helper get_stock_name inside define_cqm: stock.variables[0],
modelled totally with default empty string. -/
def get_stock_name (stock : QM) : String := stock.variables.getD 0 ""

/-- The helper extract_stock_names inside define_cqm. -/
def extract_stock_names (stocks : List QM) : List String :=
  stocks.map get_stock_name

/-- define_cqm of src/exercise_3.py: the choose-k constraint, the budget
constraint built from (name, price) pairs, and the returns objective. -/
def define_cqm (stocks : List QM) (num_stocks_to_buy : ℤ) (price : List ℚ)
    (returns : List ℚ) (budget : ℚ) : ConstrainedQuadraticModel :=
  let cqm := ConstrainedQuadraticModel.empty
  let to_buy := stocks
  let cqm := cqm.add_constraint (pySum to_buy) Sense.eq (num_stocks_to_buy : ℚ)
    "choose k stocks"
  let cqm := cqm.add_constraint_from_iterable
    ((extract_stock_names to_buy).zip price) Sense.le budget "budget_limitation"
  let cqm := cqm.set_objective (pySum ((List.range to_buy.length).map
    (fun i => (to_buy.getD i QM.zero).smul (-(returns.getD i 0)))))
  cqm

end exercise_3

namespace PortfolioOpt

theorem addLinear_weight (σ : String → ℚ) (ts : List (String × ℚ)) (v : String)
    (b : ℚ) :
    ((addLinear ts v b).map (fun t => t.2 * σ t.1)).sum
      = (ts.map (fun t => t.2 * σ t.1)).sum + b * σ v := by
  induction ts with
  | nil => simp [addLinear]
  | cons t ts ih =>
    obtain ⟨u, c⟩ := t
    by_cases h : u = v
    · subst h
      rw [show addLinear ((u, c) :: ts) u b = (u, c + b) :: ts by
        rw [addLinear]; simp]
      simp only [List.map_cons, List.sum_cons]
      ring
    · simp only [addLinear, if_neg h, List.map_cons, List.sum_cons, ih]
      ring

theorem foldl_addLinear_weight (σ : String → ℚ) (ps : List (String × ℚ)) :
    ∀ ts : List (String × ℚ),
    ((ps.foldl (fun a t => addLinear a t.1 t.2) ts).map (fun t => t.2 * σ t.1)).sum
      = (ts.map (fun t => t.2 * σ t.1)).sum + (ps.map (fun t => t.2 * σ t.1)).sum := by
  induction ps with
  | nil => intro ts; simp
  | cons p ps ih =>
    intro ts
    simp only [List.foldl_cons, ih, addLinear_weight, List.map_cons, List.sum_cons]
    ring

theorem QM.eval_add (p q : QM) (σ : String → ℚ) :
    (p.add q).eval σ = p.eval σ + q.eval σ := by
  simp only [QM.add, QM.eval, foldl_addLinear_weight]
  ring

theorem QM.eval_pySum (l : List QM) (σ : String → ℚ) :
    (pySum l).eval σ = (l.map (fun p => QM.eval p σ)).sum := by
  have key : ∀ (l : List QM) (acc : QM),
      (l.foldl QM.add acc).eval σ = acc.eval σ + (l.map (fun p => QM.eval p σ)).sum := by
    intro l
    induction l with
    | nil => intro acc; simp
    | cons p l ih =>
      intro acc
      simp only [List.foldl_cons, ih, QM.eval_add, List.map_cons, List.sum_cons]
      ring
  simpa [pySum, QM.eval, QM.zero] using key l QM.zero

theorem QM.eval_Binary (n : String) (σ : String → ℚ) :
    (Binary n).eval σ = σ n := by
  simp [Binary, QM.eval]

theorem QM.eval_smul (p : QM) (r : ℚ) (σ : String → ℚ) :
    (p.smul r).eval σ = p.eval σ * r := by
  simp only [QM.smul, QM.eval, List.map_map]
  have : ∀ ts : List (String × ℚ),
      (ts.map (fun t => ((fun t : String × ℚ => (t.1, t.2 * r)) t).2
        * σ ((fun t : String × ℚ => (t.1, t.2 * r)) t).1)).sum
      = (ts.map (fun t => t.2 * σ t.1)).sum * r := by
    intro ts
    induction ts with
    | nil => simp
    | cons t ts ih => simp only [List.map_cons, List.sum_cons, ih]; ring
  rw [Function.comp_def, this]
  ring

theorem eval_pySum_map_Binary (vnames : List String) (σ : String → ℚ) :
    (pySum (vnames.map Binary)).eval σ = (vnames.map σ).sum := by
  rw [QM.eval_pySum, List.map_map]
  congr 1
  apply List.map_congr_left
  intro n _
  exact QM.eval_Binary n σ

theorem sum_map_indicator (vnames : List String) (σ : String → Bool) :
    (vnames.map (fun n => if σ n then (1 : ℚ) else 0)).sum
      = (vnames.countP σ : ℚ) := by
  induction vnames with
  | nil => simp
  | cons n vnames ih =>
    by_cases h : σ n
    · simp [List.countP_cons, h, ih, add_comm]
    · simp [List.countP_cons, h, ih]

end PortfolioOpt

open PortfolioOpt

/-- C1: both scripts' define_cqm attach a constraint labeled
"choose k stocks" stating that the sum of the stock variables equals
num_stocks_to_buy, and a binary assignment satisfies that constraint
exactly when the number of selected stocks equals num_stocks_to_buy. -/
theorem claim_C1 (vnames : List String) (k : ℤ) (price returns : List ℚ)
    (budget : ℚ) (σ : String → Bool) :
    (⟨"choose k stocks", pySum (vnames.map Binary), Sense.eq, (k : ℚ)⟩ : Constraint)
      ∈ (exercise_1.define_cqm (vnames.map Binary) k returns).constraints
    ∧ (⟨"choose k stocks", pySum (vnames.map Binary), Sense.eq, (k : ℚ)⟩ : Constraint)
      ∈ (exercise_3.define_cqm (vnames.map Binary) k price returns budget).constraints
    ∧ ((Constraint.satisfied
          ⟨"choose k stocks", pySum (vnames.map Binary), Sense.eq, (k : ℚ)⟩
          (fun n => if σ n then 1 else 0) = true)
        ↔ (vnames.countP σ : ℤ) = k) := by
  refine ⟨?_, ?_, ?_⟩
  · simp [exercise_1.define_cqm, ConstrainedQuadraticModel.add_constraint,
      ConstrainedQuadraticModel.set_objective, ConstrainedQuadraticModel.empty]
  · simp [exercise_3.define_cqm, ConstrainedQuadraticModel.add_constraint,
      ConstrainedQuadraticModel.add_constraint_from_iterable,
      ConstrainedQuadraticModel.set_objective, ConstrainedQuadraticModel.empty]
  · rw [Constraint.satisfied]
    simp only [Sense.check, eval_pySum_map_Binary, List.map_map]
    rw [sum_map_indicator]
    rw [decide_eq_true_eq]
    exact_mod_cast Iff.rfl

/-- C4: in both scripts, define_variables returns one binary variable per
stock code, in input order, named s_ followed by the code. -/
theorem claim_C4 (stockcodes : List String) :
    (exercise_1.define_variables stockcodes).length = stockcodes.length
    ∧ (exercise_3.define_variables stockcodes).length = stockcodes.length
    ∧ ∀ i : ℕ, i < stockcodes.length →
        (exercise_1.define_variables stockcodes).getD i QM.zero
          = Binary ("s_" ++ stockcodes.getD i "")
        ∧ (exercise_3.define_variables stockcodes).getD i QM.zero
          = Binary ("s_" ++ stockcodes.getD i "") := by
  refine ⟨by simp [exercise_1.define_variables],
    by simp [exercise_3.define_variables], ?_⟩
  intro i hi
  have h1 : (exercise_1.define_variables stockcodes).getD i QM.zero
      = Binary ("s_" ++ stockcodes.getD i "") := by
    rw [List.getD_eq_getElem?_getD, List.getD_eq_getElem?_getD]
    rw [exercise_1.define_variables, List.getElem?_map]
    rw [List.getElem?_eq_getElem hi]
    simp
  exact ⟨h1, h1⟩

/-- Witness for C4 at a concrete input. -/
theorem claim_C4_witness :
    (1 : ℕ) < (["T", "SFL"] : List String).length
    ∧ (exercise_1.define_variables ["T", "SFL"]).getD 1 QM.zero = Binary "s_SFL" :=
  ⟨by decide, ((claim_C4 ["T", "SFL"]).2.2 1 (by decide)).1⟩

namespace PortfolioOpt

theorem zipWith_as_map_zip {α β γ : Type} (f : α → β → γ) :
    ∀ (l : List α) (l₂ : List β),
    List.zipWith f l l₂ = (l.zip l₂).map (fun p => f p.1 p.2)
  | [], _ => by simp
  | _ :: _, [] => by simp
  | a :: l, b :: l₂ => by
    simp only [List.zipWith_cons_cons, List.zip_cons_cons, List.map_cons]
    exact congrArg _ (zipWith_as_map_zip f l l₂)

theorem rangeMap_smul_eq_zipWith (vnames : List String) (returns : List ℚ)
    (hlen : returns.length = vnames.length) :
    (List.range (vnames.map Binary).length).map
      (fun i => ((vnames.map Binary).getD i QM.zero).smul (-(returns.getD i 0)))
    = List.zipWith (fun n r => (Binary n).smul (-r)) vnames returns := by
  induction vnames generalizing returns with
  | nil =>
    rw [List.length_eq_zero.mp hlen]
    simp
  | cons n ns ih =>
    cases returns with
    | nil => simp at hlen
    | cons r rs =>
      have h' : rs.length = ns.length := by simpa using hlen
      simp only [List.map_cons, List.length_cons, List.range_succ_eq_map,
        List.map_map, List.zipWith_cons_cons]
      congr 1
      rw [← ih rs h']
      apply List.map_congr_left
      intro i _
      simp [Function.comp_def]

theorem addLinear_of_not_mem (ts : List (String × ℚ)) (v : String) (b : ℚ)
    (h : v ∉ ts.map Prod.fst) : addLinear ts v b = ts ++ [(v, b)] := by
  induction ts with
  | nil => rfl
  | cons t ts ih =>
    obtain ⟨u, c⟩ := t
    simp only [List.map_cons, List.mem_cons, not_or] at h
    rw [addLinear, if_neg (fun hh => h.1 hh.symm), ih h.2]
    simp

theorem foldl_QM_add_singletons (pairs : List (String × ℚ)) :
    ∀ acc : QM,
    (pairs.map (fun p => QM.mk [p] 0)).foldl QM.add acc
      = ⟨pairs.foldl (fun a t => addLinear a t.1 t.2) acc.terms, acc.offset⟩ := by
  induction pairs with
  | nil => intro acc; simp
  | cons p pairs ih =>
    intro acc
    simp only [List.map_cons, List.foldl_cons, ih]
    congr 1
    simp [QM.add]

theorem pySum_singletons (pairs : List (String × ℚ)) :
    pySum (pairs.map (fun p => QM.mk [p] 0))
      = ⟨pairs.foldl (fun a t => addLinear a t.1 t.2) [], 0⟩ := by
  rw [pySum, foldl_QM_add_singletons]
  rfl

theorem foldl_addLinear_of_disjoint (pairs : List (String × ℚ)) :
    ∀ ts : List (String × ℚ),
    (pairs.map Prod.fst).Nodup →
    (∀ v ∈ pairs.map Prod.fst, v ∉ ts.map Prod.fst) →
    pairs.foldl (fun a t => addLinear a t.1 t.2) ts = ts ++ pairs := by
  induction pairs with
  | nil => intro ts _ _; simp
  | cons p pairs ih =>
    intro ts hnd hdisj
    simp only [List.map_cons, List.nodup_cons] at hnd
    have hp : p.1 ∉ ts.map Prod.fst := hdisj p.1 (by simp)
    simp only [List.foldl_cons]
    rw [show addLinear ts p.1 p.2 = ts ++ [p] by
      have := addLinear_of_not_mem ts p.1 p.2 hp
      simpa using this]
    rw [ih (ts ++ [p]) hnd.2]
    · simp
    · intro v hv
      simp only [List.map_append, List.mem_append, List.map_cons, not_or]
      exact ⟨hdisj v (by simp [hv]), by
        simp only [List.map_cons, List.map_nil, List.mem_singleton]
        intro hvp
        exact hnd.1 (hvp ▸ hv)⟩

theorem pySum_singletons_terms (pairs : List (String × ℚ))
    (hnd : (pairs.map Prod.fst).Nodup) :
    (pySum (pairs.map (fun p => QM.mk [p] 0))).terms = pairs := by
  rw [pySum_singletons]
  simpa using foldl_addLinear_of_disjoint pairs [] hnd (by simp)

theorem smul_Binary (n : String) (c : ℚ) :
    (Binary n).smul c = QM.mk [(n, c)] 0 := by
  simp [Binary, QM.smul]

theorem objective_expr_eq (vnames : List String) (returns : List ℚ)
    (hlen : returns.length = vnames.length) (hnd : vnames.Nodup) :
    pySum ((List.range (vnames.map Binary).length).map
      (fun i => ((vnames.map Binary).getD i QM.zero).smul (-(returns.getD i 0))))
    = ⟨vnames.zip (returns.map (fun r => -r)), 0⟩ := by
  rw [rangeMap_smul_eq_zipWith vnames returns hlen, zipWith_as_map_zip]
  have hmap : (vnames.zip returns).map (fun p => (Binary p.1).smul (-p.2))
      = ((vnames.zip returns).map (fun p => (p.1, -p.2))).map
          (fun q => QM.mk [q] 0) := by
    rw [List.map_map]
    apply List.map_congr_left
    intro p _
    exact smul_Binary p.1 (-p.2)
  rw [hmap]
  have hfst : ((vnames.zip returns).map (fun p => ((p.1 : String), (-p.2 : ℚ)))).map
      Prod.fst = vnames := by
    rw [List.map_map]
    have : (Prod.fst ∘ fun p : String × ℚ => (p.1, -p.2)) = Prod.fst := rfl
    rw [this]
    exact List.map_fst_zip vnames returns (le_of_eq hlen.symm)
  have hzip : (vnames.zip returns).map (fun p => ((p.1 : String), (-p.2 : ℚ)))
      = vnames.zip (returns.map (fun r => -r)) := by
    rw [List.zip_map_right]
    apply List.map_congr_left
    intro p _
    rfl
  rw [pySum_singletons]
  rw [show ((vnames.zip returns).map (fun p => ((p.1 : String), (-p.2 : ℚ)))).foldl
      (fun a t => addLinear a t.1 t.2) []
      = (vnames.zip returns).map (fun p => (p.1, -p.2)) from by
    simpa using foldl_addLinear_of_disjoint
      ((vnames.zip returns).map (fun p => (p.1, -p.2))) []
      (by rw [hfst]; exact hnd) (by simp)]
  rw [hzip]

end PortfolioOpt

namespace PortfolioOpt

theorem sum_indicator_neg (σ : String → Bool) (ps : List (String × ℚ)) :
    (ps.map (fun p => (if σ p.1 then (1 : ℚ) else 0) * -p.2)).sum
      = -((ps.map (fun p => if σ p.1 then p.2 else 0)).sum) := by
  induction ps with
  | nil => simp
  | cons p ps ih =>
    by_cases h : σ p.1
    · simp only [List.map_cons, List.sum_cons, ih, if_pos h]
      ring
    · simp only [List.map_cons, List.sum_cons, ih, if_neg h]
      ring

theorem sum_price_indicator (σ : String → Bool) (ps : List (String × ℚ)) :
    (ps.map (fun p => p.2 * (if σ p.1 then (1 : ℚ) else 0))).sum
      = (ps.map (fun p => if σ p.1 then p.2 else 0)).sum := by
  induction ps with
  | nil => simp
  | cons p ps ih =>
    by_cases h : σ p.1
    · simp [ih, if_pos h]
    · simp [ih, if_neg h]

theorem objective_eval_eq (vnames : List String) (returns : List ℚ)
    (hlen : returns.length = vnames.length) (σ : String → Bool) :
    (pySum ((List.range (vnames.map Binary).length).map
      (fun i => ((vnames.map Binary).getD i QM.zero).smul
        (-(returns.getD i 0))))).eval (fun n => if σ n then 1 else 0)
    = -(((vnames.zip returns).map (fun p => if σ p.1 then p.2 else 0)).sum) := by
  rw [rangeMap_smul_eq_zipWith vnames returns hlen, zipWith_as_map_zip,
    QM.eval_pySum, List.map_map]
  rw [show ((fun p : QM => p.eval (fun n => if σ n then 1 else 0))
      ∘ fun p : String × ℚ => (Binary p.1).smul (-p.2))
      = fun p : String × ℚ => (if σ p.1 then (1 : ℚ) else 0) * -p.2 from by
    funext p
    simp [QM.eval_smul, QM.eval_Binary]]
  exact sum_indicator_neg σ (vnames.zip returns)

theorem extract_stock_names_map_Binary (vnames : List String) :
    exercise_3.extract_stock_names (vnames.map Binary) = vnames := by
  rw [exercise_3.extract_stock_names, List.map_map]
  rw [show exercise_3.get_stock_name ∘ Binary = id from rfl, List.map_id]

theorem eval_from_iterable (pairs : List (String × ℚ)) (σ : String → ℚ) :
    QM.eval ⟨pairs.foldl (fun a t => addLinear a t.1 t.2) [], 0⟩ σ
      = (pairs.map (fun t => t.2 * σ t.1)).sum := by
  simp [QM.eval, foldl_addLinear_weight]

end PortfolioOpt

/-- C2: in both scripts the objective is the linear expression whose term
for the i-th stock has bias minus returns i and whose offset is zero, and
under any binary assignment its value is the negated total return of the
selected stocks, so minimizing it maximizes the expected return. -/
theorem claim_C2 (vnames : List String) (k : ℤ) (price returns : List ℚ)
    (budget : ℚ) (hnd : vnames.Nodup) (hlen : returns.length = vnames.length) :
    (exercise_3.define_cqm (vnames.map Binary) k price returns budget).objective
      = (exercise_1.define_cqm (vnames.map Binary) k returns).objective
    ∧ (exercise_1.define_cqm (vnames.map Binary) k returns).objective
        = ⟨vnames.zip (returns.map (fun r => -r)), 0⟩
    ∧ ∀ σ : String → Bool,
        (exercise_1.define_cqm (vnames.map Binary) k returns).objective.eval
            (fun n => if σ n then 1 else 0)
          = -(((vnames.zip returns).map (fun p => if σ p.1 then p.2 else 0)).sum) := by
  refine ⟨rfl, ?_, ?_⟩
  · show pySum _ = _
    exact objective_expr_eq vnames returns hlen hnd
  · intro σ
    exact objective_eval_eq vnames returns hlen σ

/-- Witness for C2 at a concrete input. -/
theorem claim_C2_witness :
    (["a", "b"] : List String).Nodup
    ∧ ([(1 : ℚ)/10, 2] : List ℚ).length = (["a", "b"] : List String).length
    ∧ (exercise_1.define_cqm ((["a", "b"] : List String).map Binary) 1
        [1/10, 2]).objective
      = ⟨(["a", "b"] : List String).zip (([(1 : ℚ)/10, 2] : List ℚ).map
          (fun r => -r)), 0⟩ :=
  ⟨by decide, rfl,
    (claim_C2 ["a", "b"] 1 [] [1/10, 2] 0 (by decide) rfl).2.1⟩

/-- C3: exercise_3's CQM carries a second constraint labeled
budget_limitation stating that the total price of the selected stocks is
at most the budget, while exercise_1's CQM has the choose-k constraint as
its only constraint. -/
theorem claim_C3 (vnames : List String) (k : ℤ) (price returns : List ℚ)
    (budget : ℚ) (σ : String → Bool) :
    ((exercise_1.define_cqm (vnames.map Binary) k returns).constraints.map
        Constraint.label = ["choose k stocks"])
    ∧ ((exercise_3.define_cqm (vnames.map Binary) k price returns
          budget).constraints.map Constraint.label
        = ["choose k stocks", "budget_limitation"])
    ∧ (((exercise_3.define_cqm (vnames.map Binary) k price returns
          budget).constraints.getD 1 ⟨"", QM.zero, Sense.eq, 0⟩).satisfied
            (fun n => if σ n then 1 else 0) = true
        ↔ ((vnames.zip price).map (fun p => if σ p.1 then p.2 else 0)).sum
            ≤ budget) := by
  refine ⟨?_, ?_, ?_⟩
  · simp [exercise_1.define_cqm, ConstrainedQuadraticModel.add_constraint,
      ConstrainedQuadraticModel.set_objective, ConstrainedQuadraticModel.empty]
  · simp [exercise_3.define_cqm, ConstrainedQuadraticModel.add_constraint,
      ConstrainedQuadraticModel.add_constraint_from_iterable,
      ConstrainedQuadraticModel.set_objective, ConstrainedQuadraticModel.empty]
  · rw [show (exercise_3.define_cqm (vnames.map Binary) k price returns
        budget).constraints.getD 1 ⟨"", QM.zero, Sense.eq, 0⟩
      = ⟨"budget_limitation",
          ⟨((exercise_3.extract_stock_names (vnames.map Binary)).zip
              price).foldl (fun a t => addLinear a t.1 t.2) [], 0⟩,
          Sense.le, budget⟩ from rfl]
    rw [Constraint.satisfied]
    simp only [Sense.check, eval_from_iterable, extract_stock_names_map_Binary]
    rw [sum_price_indicator, decide_eq_true_eq]

namespace PortfolioOpt

/-- Strict lexicographic order on index pairs. -/
def lexLT (p q : ℕ × ℕ) : Prop :=
  p.1 < q.1 ∨ (p.1 = q.1 ∧ p.2 < q.2)

theorem sum_map_succ_of (l : List ℕ) (f g : ℕ → ℕ)
    (h : ∀ i ∈ l, f i = g i + 1) :
    (l.map f).sum = (l.map g).sum + l.length := by
  induction l with
  | nil => simp
  | cons a l ih =>
    simp only [List.map_cons, List.sum_cons, List.length_cons,
      h a (by simp), ih (fun i hi => h i (by simp [hi]))]
    omega

theorem twice_sum_range_sub (n : ℕ) :
    2 * ((List.range n).map (fun i => n - i)).sum = n * (n + 1) := by
  induction n with
  | zero => simp
  | succ n ih =>
    rw [List.range_succ, List.map_append, List.sum_append]
    have hshift : ((List.range n).map (fun i => n + 1 - i)).sum
        = ((List.range n).map (fun i => n - i)).sum + n := by
      rw [sum_map_succ_of (List.range n) (fun i => n + 1 - i) (fun i => n - i)
        (by
          intro i hi
          rw [List.mem_range] at hi
          show n + 1 - i = n - i + 1
          omega)]
      simp
    have hmul : (n + 1) * (n + 1 + 1) = n * (n + 1) + 2 * (n + 1) := by ring
    simp only [List.map_cons, List.map_nil, List.sum_cons, List.sum_nil]
    omega

theorem length_filter_row (i n : ℕ) :
    ((List.range n).filter
      (fun j => exercise_3.is_part_of_lower_triangular_matrix (i, j))).length
      = n - i := by
  induction n with
  | zero => simp
  | succ n ih =>
    rw [List.range_succ, List.filter_append, List.length_append, ih]
    by_cases h : i ≤ n
    · have hp : exercise_3.is_part_of_lower_triangular_matrix (i, n) = true := by
        simp [exercise_3.is_part_of_lower_triangular_matrix, h]
      rw [show List.filter
          (fun j => exercise_3.is_part_of_lower_triangular_matrix (i, j)) [n]
          = [n] from by simp [hp]]
      simp only [List.length_cons, List.length_nil]
      omega
    · have hp : exercise_3.is_part_of_lower_triangular_matrix (i, n) = false := by
        simp [exercise_3.is_part_of_lower_triangular_matrix]
        omega
      rw [show List.filter
          (fun j => exercise_3.is_part_of_lower_triangular_matrix (i, j)) [n]
          = [] from by simp [hp]]
      simp only [List.length_nil]
      omega

end PortfolioOpt

/-- C6: generate_unique_covar_matrix_entries n returns exactly the pairs
(i, j) with i at most j and j below n, sorted strictly lexicographically
(hence without repetition), and there are n * (n + 1) / 2 of them. -/
theorem claim_C6 (n : ℕ) :
    (∀ p : ℕ × ℕ,
      p ∈ exercise_3.generate_unique_covar_matrix_entries n
        ↔ p.1 ≤ p.2 ∧ p.2 < n)
    ∧ (exercise_3.generate_unique_covar_matrix_entries n).Pairwise lexLT
    ∧ (exercise_3.generate_unique_covar_matrix_entries n).length
        = n * (n + 1) / 2 := by
  refine ⟨?_, ?_, ?_⟩
  · intro p
    obtain ⟨a, b⟩ := p
    simp only [exercise_3.generate_unique_covar_matrix_entries,
      exercise_3.is_part_of_lower_triangular_matrix, List.mem_filter,
      List.mem_flatMap, List.mem_range, List.mem_map, Prod.mk.injEq,
      decide_eq_true_eq]
    constructor
    · rintro ⟨⟨i, hi, j, hj, rfl, rfl⟩, hle⟩
      exact ⟨hle, hj⟩
    · rintro ⟨hle, hb⟩
      exact ⟨⟨a, by omega, b, hb, rfl, rfl⟩, hle⟩
  · apply List.Pairwise.filter
    rw [List.pairwise_flatMap]
    constructor
    · intro i _
      rw [List.pairwise_map]
      exact (List.pairwise_lt_range n).imp (fun h => Or.inr ⟨rfl, h⟩)
    · apply (List.pairwise_lt_range n).imp
      intro i j hij x hx y hy
      rw [List.mem_map] at hx hy
      obtain ⟨a, _, rfl⟩ := hx
      obtain ⟨b, _, rfl⟩ := hy
      exact Or.inl hij
  · have hrow : ∀ i : ℕ,
        (((List.range n).map (fun j => (i, j))).filter
          exercise_3.is_part_of_lower_triangular_matrix).length = n - i := by
      intro i
      rw [List.filter_map, List.length_map]
      exact length_filter_row i n
    have hlen : (exercise_3.generate_unique_covar_matrix_entries n).length
        = ((List.range n).map (fun i => n - i)).sum := by
      show (((List.range n).flatMap
          (fun i => (List.range n).map (fun j => (i, j)))).filter
            exercise_3.is_part_of_lower_triangular_matrix).length
        = ((List.range n).map (fun i => n - i)).sum
      rw [List.filter_flatMap, List.length_flatMap]
      congr 1
      apply List.map_congr_left
      intro i _
      exact hrow i
    rw [hlen, ← twice_sum_range_sub n]
    exact (Nat.mul_div_cancel_left _ (by norm_num)).symm

namespace PortfolioOpt

/-- Appending a name to an ordered name list unless already present:
the effect of one bias insertion on the variable order. -/
def insertName (ns : List String) (v : String) : List String :=
  if v ∈ ns then ns else ns ++ [v]

theorem addLinear_map_fst (ts : List (String × ℚ)) (v : String) (b : ℚ) :
    (addLinear ts v b).map Prod.fst = insertName (ts.map Prod.fst) v := by
  induction ts with
  | nil => simp [addLinear, insertName]
  | cons t ts ih =>
    obtain ⟨u, c⟩ := t
    by_cases h : u = v
    · subst h
      rw [show addLinear ((u, c) :: ts) u b = (u, c + b) :: ts from by
        rw [addLinear]; simp]
      simp [insertName]
    · rw [show addLinear ((u, c) :: ts) v b = (u, c) :: addLinear ts v b from by
        rw [addLinear]; simp [h]]
      by_cases hv : v ∈ ts.map Prod.fst
      · simp [insertName, ih, hv, Ne.symm h]
      · simp [insertName, ih, hv, Ne.symm h]

theorem foldl_addLinear_map_fst (ps : List (String × ℚ)) :
    ∀ ts : List (String × ℚ),
    ((ps.foldl (fun a t => addLinear a t.1 t.2) ts).map Prod.fst)
      = (ps.map Prod.fst).foldl insertName (ts.map Prod.fst) := by
  induction ps with
  | nil => intro ts; simp
  | cons p ps ih =>
    intro ts
    simp only [List.foldl_cons, List.map_cons, ih, addLinear_map_fst]

theorem variables_from_iterable (pairs : List (String × ℚ)) :
    QM.variables ⟨pairs.foldl (fun a t => addLinear a t.1 t.2) [], 0⟩
      = (pairs.map Prod.fst).foldl insertName [] := by
  rw [QM.variables, foldl_addLinear_map_fst]
  rfl

theorem variables_pySum_map_Binary (vnames : List String) :
    (pySum (vnames.map Binary)).variables = vnames.foldl insertName [] := by
  rw [show vnames.map Binary
      = (vnames.map (fun n => ((n : String), (1 : ℚ)))).map (fun p => QM.mk [p] 0)
      from by rw [List.map_map]; rfl]
  rw [pySum_singletons]
  rw [show QM.variables ⟨(vnames.map (fun n => ((n : String), (1 : ℚ)))).foldl
        (fun a t => addLinear a t.1 t.2) [], 0⟩
      = ((vnames.map (fun n => ((n : String), (1 : ℚ)))).map Prod.fst).foldl
          insertName [] from variables_from_iterable _]
  rw [List.map_map]
  rw [show (Prod.fst ∘ fun n : String => (n, (1 : ℚ))) = id from rfl, List.map_id]

theorem variables_objective (vnames : List String) (returns : List ℚ)
    (hr : returns.length = vnames.length) :
    (pySum ((List.range (vnames.map Binary).length).map
      (fun i => ((vnames.map Binary).getD i QM.zero).smul
        (-(returns.getD i 0))))).variables
      = vnames.foldl insertName [] := by
  rw [rangeMap_smul_eq_zipWith vnames returns hr, zipWith_as_map_zip]
  rw [show (vnames.zip returns).map (fun p => (Binary p.1).smul (-p.2))
      = ((vnames.zip returns).map (fun p => ((p.1 : String), (-p.2 : ℚ)))).map
          (fun q => QM.mk [q] 0) from by
    rw [List.map_map]
    apply List.map_congr_left
    intro p _
    exact smul_Binary p.1 (-p.2)]
  rw [pySum_singletons]
  rw [show QM.variables ⟨((vnames.zip returns).map
        (fun p => ((p.1 : String), (-p.2 : ℚ)))).foldl
        (fun a t => addLinear a t.1 t.2) [], 0⟩
      = (((vnames.zip returns).map (fun p => ((p.1 : String), (-p.2 : ℚ)))).map
          Prod.fst).foldl insertName [] from variables_from_iterable _]
  rw [List.map_map]
  rw [show (Prod.fst ∘ fun p : String × ℚ => (p.1, -p.2)) = Prod.fst from rfl]
  rw [List.map_fst_zip vnames returns (le_of_eq hr.symm)]

end PortfolioOpt

/-- C7: with stocks the binary variables, the name extracted for each
stock is that variable's name, and the budget constraint, the choose-k
constraint, and the objective of exercise_3's CQM all range over the same
variable list. -/
theorem claim_C7 (vnames : List String) (k : ℤ) (price returns : List ℚ)
    (budget : ℚ) (hp : price.length = vnames.length)
    (hr : returns.length = vnames.length) :
    exercise_3.extract_stock_names (vnames.map Binary) = vnames
    ∧ ((exercise_3.define_cqm (vnames.map Binary) k price returns
          budget).constraints.getD 1 ⟨"", QM.zero, Sense.eq, 0⟩).lhs.variables
        = ((exercise_3.define_cqm (vnames.map Binary) k price returns
          budget).constraints.getD 0 ⟨"", QM.zero, Sense.eq, 0⟩).lhs.variables
    ∧ (exercise_3.define_cqm (vnames.map Binary) k price returns
          budget).objective.variables
        = ((exercise_3.define_cqm (vnames.map Binary) k price returns
          budget).constraints.getD 0 ⟨"", QM.zero, Sense.eq, 0⟩).lhs.variables := by
  have hchoose : ((exercise_3.define_cqm (vnames.map Binary) k price returns
      budget).constraints.getD 0 ⟨"", QM.zero, Sense.eq, 0⟩).lhs.variables
      = vnames.foldl insertName [] := by
    rw [show ((exercise_3.define_cqm (vnames.map Binary) k price returns
        budget).constraints.getD 0 ⟨"", QM.zero, Sense.eq, 0⟩).lhs
      = pySum (vnames.map Binary) from rfl]
    exact variables_pySum_map_Binary vnames
  refine ⟨extract_stock_names_map_Binary vnames, ?_, ?_⟩
  · rw [hchoose]
    rw [show ((exercise_3.define_cqm (vnames.map Binary) k price returns
        budget).constraints.getD 1 ⟨"", QM.zero, Sense.eq, 0⟩).lhs
      = ⟨((exercise_3.extract_stock_names (vnames.map Binary)).zip price).foldl
          (fun a t => addLinear a t.1 t.2) [], 0⟩ from rfl]
    rw [variables_from_iterable, extract_stock_names_map_Binary]
    rw [List.map_fst_zip vnames price (le_of_eq hp.symm)]
  · rw [hchoose]
    rw [show (exercise_3.define_cqm (vnames.map Binary) k price returns
        budget).objective
      = pySum ((List.range (vnames.map Binary).length).map
          (fun i => ((vnames.map Binary).getD i QM.zero).smul
            (-(returns.getD i 0)))) from rfl]
    exact variables_objective vnames returns hr

/-- Witness for C7 at a concrete input. -/
theorem claim_C7_witness :
    ([(2 : ℚ), 3] : List ℚ).length = (["a", "b"] : List String).length
    ∧ ([(1 : ℚ), 1] : List ℚ).length = (["a", "b"] : List String).length
    ∧ exercise_3.extract_stock_names ((["a", "b"] : List String).map Binary)
        = ["a", "b"] :=
  ⟨rfl, rfl, (claim_C7 ["a", "b"] 1 [2, 3] [1, 1] 5 rfl rfl).1⟩

namespace PortfolioOpt

/-- An observable event of a script run: one submission of a CQM to the
remote sampler service, or one string printed to standard output. -/
inductive Event where
  | remoteCall (cqm : ConstrainedQuadraticModel)
  | printed (s : String)
deriving DecidableEq

/-- Tests whether an event is a remote-service invocation. -/
def isRemoteCall : Event → Bool
  | .remoteCall _ => true
  | .printed _ => false

end PortfolioOpt

namespace exercise_1

/-- sample_cqm of src/exercise_1.py. Modelled from the spec: the
LeapHybridCQMSampler lives in the vendor SDK, outside this repository, so
the remote service is a parameter mapping the submitted CQM to a
sampleset. Constructing the sampler performs no call; sampler.sample_cqm
is the single remote invocation and its result is returned unchanged. -/
def sample_cqm {α : Type} (sampler : ConstrainedQuadraticModel → α)
    (cqm : ConstrainedQuadraticModel) : α × List Event :=
  let sampleset := sampler cqm
  (sampleset, [Event.remoteCall cqm])

/-- The top-level run of src/exercise_1.py. Modelled from the spec:
utilities.get_stock_info and utilities.process_sampleset are outside this
repository, so the stock statistics are an input triple and the
formatter that process_sampleset prints with is a parameter. -/
def main {α : Type} (stock_info : List ℚ × List ℚ × List (List ℚ))
    (sampler : ConstrainedQuadraticModel → α)
    (process_sampleset : α → List String → String) : List Event :=
  let stockcodes := ["T", "SFL", "PFE", "XOM", "MO", "VZ", "IBM", "TSLA",
    "GILD", "GE"]
  let (price, returns, variance) := stock_info
  let num_stocks_to_buy : ℤ := 2
  let stocks := define_variables stockcodes
  let cqm := define_cqm stocks num_stocks_to_buy returns
  let (sampleset, events) := sample_cqm sampler cqm
  events ++ [Event.printed "\nPart 1 solution:\n",
    Event.printed (process_sampleset sampleset stockcodes)]

end exercise_1

namespace exercise_3

/-- sample_cqm of src/exercise_3.py: identical to exercise_1's. -/
def sample_cqm {α : Type} (sampler : ConstrainedQuadraticModel → α)
    (cqm : ConstrainedQuadraticModel) : α × List Event :=
  let sampleset := sampler cqm
  (sampleset, [Event.remoteCall cqm])

/-- The top-level run of src/exercise_3.py, modelled like exercise_1's
with the additional budget of 80. -/
def main {α : Type} (stock_info : List ℚ × List ℚ × List (List ℚ))
    (sampler : ConstrainedQuadraticModel → α)
    (process_sampleset : α → List String → String) : List Event :=
  let stockcodes := ["T", "SFL", "PFE", "XOM", "MO", "VZ", "IBM", "TSLA",
    "GILD", "GE"]
  let (price, returns, variance) := stock_info
  let num_stocks_to_buy : ℤ := 2
  let budget : ℚ := 80
  let stocks := define_variables stockcodes
  let cqm := define_cqm stocks num_stocks_to_buy price returns budget
  let (sampleset, events) := sample_cqm sampler cqm
  events ++ [Event.printed "\nPart 2 solution:\n",
    Event.printed (process_sampleset sampleset stockcodes)]

end exercise_3

/-- C5: each script's run first builds the CQM, then performs exactly one
remote-service call, on that CQM, and finally prints the sampleset the
service returned, unchanged, through the formatter; the trace holds no
other solving step. -/
theorem claim_C5 {α : Type} (stock_info : List ℚ × List ℚ × List (List ℚ))
    (sampler : ConstrainedQuadraticModel → α)
    (process_sampleset : α → List String → String) :
    (exercise_1.main stock_info sampler process_sampleset
      = [Event.remoteCall (exercise_1.define_cqm
            (exercise_1.define_variables ["T", "SFL", "PFE", "XOM", "MO",
              "VZ", "IBM", "TSLA", "GILD", "GE"]) 2 stock_info.2.1),
         Event.printed "\nPart 1 solution:\n",
         Event.printed (process_sampleset
            (sampler (exercise_1.define_cqm
              (exercise_1.define_variables ["T", "SFL", "PFE", "XOM", "MO",
                "VZ", "IBM", "TSLA", "GILD", "GE"]) 2 stock_info.2.1))
            ["T", "SFL", "PFE", "XOM", "MO", "VZ", "IBM", "TSLA", "GILD",
              "GE"])])
    ∧ (exercise_1.main stock_info sampler process_sampleset).countP
        isRemoteCall = 1
    ∧ (exercise_3.main stock_info sampler process_sampleset
      = [Event.remoteCall (exercise_3.define_cqm
            (exercise_3.define_variables ["T", "SFL", "PFE", "XOM", "MO",
              "VZ", "IBM", "TSLA", "GILD", "GE"]) 2 stock_info.1
            stock_info.2.1 80),
         Event.printed "\nPart 2 solution:\n",
         Event.printed (process_sampleset
            (sampler (exercise_3.define_cqm
              (exercise_3.define_variables ["T", "SFL", "PFE", "XOM", "MO",
                "VZ", "IBM", "TSLA", "GILD", "GE"]) 2 stock_info.1
              stock_info.2.1 80))
            ["T", "SFL", "PFE", "XOM", "MO", "VZ", "IBM", "TSLA", "GILD",
              "GE"])])
    ∧ (exercise_3.main stock_info sampler process_sampleset).countP
        isRemoteCall = 1 := by
  obtain ⟨price, returns, variance⟩ := stock_info
  refine ⟨rfl, ?_, rfl, ?_⟩
  · rfl
  · rfl

namespace PortfolioOpt

/-- The mutable store of a script run: the allocated Python list objects
of stock variables, and the allocated ConstrainedQuadraticModel objects,
each addressed by position. -/
structure Store where
  lists : List (List QM)
  cqms : List ConstrainedQuadraticModel

/-- Overwriting one CQM object in the store: the only mutation the dimod
methods used by define_cqm perform. -/
def Store.setCqm (s : Store) (a : ℕ) (c : ConstrainedQuadraticModel) : Store :=
  ⟨s.lists, s.cqms.set a c⟩

theorem getD_append_length {α : Type} (l : List α) (x d : α) :
    (l ++ [x]).getD l.length d = x := by
  induction l with
  | nil => rfl
  | cons a l ih => simpa using ih

theorem set_append_length {α : Type} (l : List α) (x y : α) :
    (l ++ [x]).set l.length y = l ++ [y] := by
  induction l with
  | nil => rfl
  | cons a l ih => simpa using ih

end PortfolioOpt

namespace exercise_1

/-- define_cqm of src/exercise_1.py threaded through the store: the
stocks argument is the address of a list object; ConstrainedQuadraticModel()
allocates a fresh object, list(stocks) allocates a fresh copy of the
argument list, and the two dimod method calls overwrite only the fresh
CQM object. Returns the final store and the address of the built CQM. -/
def define_cqm_heap (s : Store) (stocks : ℕ) (num_stocks_to_buy : ℤ)
    (returns : List ℚ) : Store × ℕ :=
  let cqm_addr := s.cqms.length
  let s : Store := ⟨s.lists, s.cqms ++ [ConstrainedQuadraticModel.empty]⟩
  let to_buy_val := s.lists.getD stocks []
  let s : Store := ⟨s.lists ++ [to_buy_val], s.cqms⟩
  let s := s.setCqm cqm_addr
    ((s.cqms.getD cqm_addr ConstrainedQuadraticModel.empty).add_constraint
      (pySum to_buy_val) Sense.eq (num_stocks_to_buy : ℚ) "choose k stocks")
  let s := s.setCqm cqm_addr
    ((s.cqms.getD cqm_addr ConstrainedQuadraticModel.empty).set_objective
      (pySum ((List.range to_buy_val.length).map
        (fun i => (to_buy_val.getD i QM.zero).smul (-(returns.getD i 0))))))
  (s, cqm_addr)

end exercise_1

namespace exercise_3

/-- define_cqm of src/exercise_3.py threaded through the store, like
exercise_1's but with the budget constraint between the two other
building steps. -/
def define_cqm_heap (s : Store) (stocks : ℕ) (num_stocks_to_buy : ℤ)
    (price : List ℚ) (returns : List ℚ) (budget : ℚ) : Store × ℕ :=
  let cqm_addr := s.cqms.length
  let s : Store := ⟨s.lists, s.cqms ++ [ConstrainedQuadraticModel.empty]⟩
  let to_buy_val := s.lists.getD stocks []
  let s : Store := ⟨s.lists ++ [to_buy_val], s.cqms⟩
  let s := s.setCqm cqm_addr
    ((s.cqms.getD cqm_addr ConstrainedQuadraticModel.empty).add_constraint
      (pySum to_buy_val) Sense.eq (num_stocks_to_buy : ℚ) "choose k stocks")
  let s := s.setCqm cqm_addr
    ((s.cqms.getD cqm_addr
        ConstrainedQuadraticModel.empty).add_constraint_from_iterable
      ((extract_stock_names to_buy_val).zip price) Sense.le budget
      "budget_limitation")
  let s := s.setCqm cqm_addr
    ((s.cqms.getD cqm_addr ConstrainedQuadraticModel.empty).set_objective
      (pySum ((List.range to_buy_val.length).map
        (fun i => (to_buy_val.getD i QM.zero).smul (-(returns.getD i 0))))))
  (s, cqm_addr)

end exercise_3

/-- C8: running either define_cqm over the store leaves every
pre-existing object unchanged — in particular the stocks list argument —
and the returned address holds exactly the CQM that the pure define_cqm
builds from the argument values; returns, price and budget are passed as
immutable values. -/
theorem claim_C8 (s : Store) (stocks : ℕ) (num_stocks_to_buy : ℤ)
    (price returns : List ℚ) (budget : ℚ) :
    ((exercise_1.define_cqm_heap s stocks num_stocks_to_buy
        returns).1.lists.take s.lists.length = s.lists
      ∧ (exercise_1.define_cqm_heap s stocks num_stocks_to_buy
          returns).1.cqms.take s.cqms.length = s.cqms
      ∧ (exercise_1.define_cqm_heap s stocks num_stocks_to_buy
          returns).1.cqms.getD
            (exercise_1.define_cqm_heap s stocks num_stocks_to_buy returns).2
            ConstrainedQuadraticModel.empty
        = exercise_1.define_cqm (s.lists.getD stocks []) num_stocks_to_buy
            returns)
    ∧ ((exercise_3.define_cqm_heap s stocks num_stocks_to_buy price returns
          budget).1.lists.take s.lists.length = s.lists
      ∧ (exercise_3.define_cqm_heap s stocks num_stocks_to_buy price returns
          budget).1.cqms.take s.cqms.length = s.cqms
      ∧ (exercise_3.define_cqm_heap s stocks num_stocks_to_buy price returns
          budget).1.cqms.getD
            (exercise_3.define_cqm_heap s stocks num_stocks_to_buy price
              returns budget).2 ConstrainedQuadraticModel.empty
        = exercise_3.define_cqm (s.lists.getD stocks []) num_stocks_to_buy
            price returns budget) := by
  constructor
  · refine ⟨?_, ?_, ?_⟩
    · simp [exercise_1.define_cqm_heap, Store.setCqm, List.take_left]
    · simp [exercise_1.define_cqm_heap, Store.setCqm, set_append_length,
        List.take_left]
    · simp [exercise_1.define_cqm_heap, Store.setCqm, set_append_length,
        getD_append_length, exercise_1.define_cqm]
  · refine ⟨?_, ?_, ?_⟩
    · simp [exercise_3.define_cqm_heap, Store.setCqm, List.take_left]
    · simp [exercise_3.define_cqm_heap, Store.setCqm, set_append_length,
        List.take_left]
    · simp [exercise_3.define_cqm_heap, Store.setCqm, set_append_length,
        getD_append_length, exercise_3.define_cqm]
